import Mathlib

/-!
# Verification of the A2F streaming service scheduler

Shallow embedding of `src/app/streaming_logic.py`, `src/app/main.py` and
`src/app/config.py` from the `a2f-client` repository, together with proofs
about the slice partitioning, rate control, ordered emission, resource
allocation and lock-acquisition logic.

Durations and wall-clock times are modelled as rationals (`ℚ`); frame rates
are integers (`ℤ`), matching the Python code where `current_fps` only ever
holds `int` values (initialised to `30`, set from the optional `int` request
parameter, and updated with `math.floor` / `//` arithmetic).
-/

namespace A2F

/-! ## Constants of `StreamingManager.__init__` -/

/-- `self.chunk_size = 0.3` -/
def chunk_size : ℚ := 3 / 10

/-- `self.max_fps = 30` -/
def max_fps : ℤ := 30

/-- `self.min_fps = 10` -/
def min_fps : ℤ := 10

/-- `self.default_fps = 10` -/
def default_fps : ℤ := 10

/-- `self.current_fps = 30` set in `StreamingManager.__init__`. -/
def init_current_fps : ℤ := 30

/-! ## Slice construction (`submit_job`, lines 148-155)

`nr_splits = math.ceil(duration / self.chunk_size - 0.5)` and
`chunks = [(i * self.chunk_size, min((i + 1) * self.chunk_size, duration))
           for i in range(nr_splits)]`.
Python's `range` of a non-positive integer is empty, which `Int.toNat`
reproduces. -/

/-- Number of slices computed by `submit_job`. -/
def nr_splits (duration : ℚ) : ℤ := Int.ceil (duration / chunk_size - 1 / 2)

/-- The slice list `chunks` built by `submit_job`: slice `i` is
`(i * chunk_size, min ((i+1) * chunk_size) duration)`. -/
def chunks (duration : ℚ) : List (ℚ × ℚ) :=
  (List.range (nr_splits duration).toNat).map
    (fun i : ℕ => ((i : ℚ) * chunk_size, min (((i : ℚ) + 1) * chunk_size) duration))

/-! ## Rate control (`generate_blendshapes_coroutine`, lines 120-128)

`alpha = (end - start) / elapsed_time`;
`safe_fps = max(self.min_fps, math.floor(len(self.a2f_clients) * self.current_fps * alpha - 7))`;
`self.current_fps = min(self.max_fps, (self.current_fps + safe_fps) // 2)`.
Python `//` on integers is floor division, i.e. `Int.fdiv`. -/

/-- `safe_fps` as computed after a completed slice; `workerCount` embeds
`len(self.a2f_clients)` and `alpha` the measured throughput ratio. -/
def safe_fps (workerCount : ℕ) (c : ℤ) (alpha : ℚ) : ℤ :=
  max min_fps (Int.floor ((workerCount : ℚ) * (c : ℚ) * alpha - 7))

/-- The rate update `self.current_fps = min(self.max_fps, (self.current_fps + safe_fps) // 2)`. -/
def update_fps (workerCount : ℕ) (c : ℤ) (alpha : ℚ) : ℤ :=
  min max_fps (Int.fdiv (c + safe_fps workerCount c alpha) 2)

/-- The trajectory of `current_fps` along a sequence of observed throughput
ratios: the list of values taken by `current_fps`, starting with the value
before the first update. -/
def fps_trace (workerCount : ℕ) (c : ℤ) : List ℚ → List ℤ
  | [] => [c]
  | a :: rest => c :: fps_trace workerCount (update_fps workerCount c a) rest

/-- `submit_job` lines 139-141: `if fps is None: fps = self.default_fps`,
then `self.current_fps = fps`. -/
def resolve_fps (fps : Option ℤ) : ℤ := fps.getD default_fps

/-- The rate update exactly as the specification words it, with an exact
(unfloored) damped average over the rationals:
`currentFps = min(maxFps, (currentFps + estimatedSafeFps) / 2)`. Stated for
comparison against `update_fps`, which embeds the code's `//`. -/
def update_fps_spec_formula (workerCount : ℕ) (c : ℤ) (alpha : ℚ) : ℚ :=
  min (max_fps : ℚ) (((c : ℚ) + (safe_fps workerCount c alpha : ℚ)) / 2)

/-! ## The streamed output sequence (`submit_job`, lines 163-169)

`for idx, task in enumerate(tasks): result = await task; yield
json.dumps({"chunk_id": idx, "result": result})`. One task exists per slice,
awaited strictly in list (slice-index) order. -/

/-- One emitted record `{"chunk_id": idx, "result": result}`. -/
structure SliceRecord (α : Type) where
  chunk_id : ℕ
  result : α
deriving DecidableEq

/-- The full sequence emitted by `submit_job`'s drain loop. `payload i` is the
value task `i` returns; `completion i` is the (arbitrary) wall-clock time at
which task `i` finishes. Awaiting task `idx` suspends until that completion
time and then returns its payload, so the drain loop — which awaits the tasks
strictly in list order — produces a sequence that does not depend on
`completion` at all. -/
def submit_job_stream {α : Type} (completion : ℕ → ℚ) (payload : ℕ → α)
    (duration : ℚ) : List (SliceRecord α) :=
  let _ := completion
  (List.range (chunks duration).length).map (fun idx => ⟨idx, payload idx⟩)

/-! ## Worker calls issued by `submit_job` (lines 142-162)

Setup: `for client in self.a2f_clients: client.set_audio(audio_path);
if emotions: client.set_emotions(dict(emotions))`. Then one
`generate_blendshapes` call per slice on client `i % len(self.a2f_clients)`. -/

/-- A remote call made to a worker client. -/
inductive WorkerCall
  | setAudio (client : ℕ)
  | setEmotions (client : ℕ)
  | generate (client : ℕ) (start «end» : ℚ)
deriving DecidableEq

/-- The per-job setup calls pushed to every client before any slice work. -/
def setup_calls (numClients : ℕ) (hasEmotions : Bool) : List WorkerCall :=
  (List.range numClients).flatMap
    (fun c => WorkerCall.setAudio c :: if hasEmotions then [WorkerCall.setEmotions c] else [])

/-- The `generate_blendshapes` calls, one per slice, slice `i` on client
`i % numClients`. -/
def generate_calls (numClients : ℕ) (duration : ℚ) : List WorkerCall :=
  (chunks duration).enum.map
    (fun ie => WorkerCall.generate (ie.1 % numClients) ie.2.1 ie.2.2)

/-- All worker calls a run of `submit_job` issues, in program order: setup on
every client first, then the per-slice generation calls. -/
def submit_job_calls (numClients : ℕ) (hasEmotions : Bool) (duration : ℚ) :
    List WorkerCall :=
  setup_calls numClients hasEmotions ++ generate_calls numClients duration

/-- Modelled from the spec: the decode collaborator `load_audio` (module
`A2FClient.utils`, imported by `streaming_logic.py` but not under `src/`)
"given a path/handle, returns total duration and a normalized handle". The
spec places no constraint on the returned duration, so it is modelled as an
arbitrary rational input passed through unchanged. -/
def load_audio_duration (d : ℚ) : ℚ := d

/-! ## The HTTP endpoint (`main.py`, `process_audio_endpoint`, lines 137-196)

The endpoint parses the optional `emotions` form field; `json.JSONDecodeError`
or pydantic `ValidationError` (a `ValueError`) raises HTTP 400 before
`submit_job` is ever called. Otherwise `submit_job` runs, which issues setup
calls to every client unconditionally — there is no validation of the decoded
duration anywhere on this path. -/

/-- The state of the optional `emotions` form field as the endpoint sees it. -/
inductive EmotionsForm
  | absent
  | malformed
  | wellformed
deriving DecidableEq

/-- The endpoint's behaviour, abstracted to the error raised or the list of
worker calls the job issues: `malformed` hits the `except (json.JSONDecodeError,
ValueError)` branch and raises HTTP 400 with no worker call; otherwise
`submit_job` runs with `emotions` truthy iff a wellformed field was given. -/
def process_audio (emotions : EmotionsForm) (numClients : ℕ) (duration : ℚ) :
    Except String (List WorkerCall) :=
  match emotions with
  | .malformed => Except.error "400 Invalid emotions format"
  | .absent => Except.ok (submit_job_calls numClients false (load_audio_duration duration))
  | .wellformed => Except.ok (submit_job_calls numClients true (load_audio_duration duration))

/-! ## Port allocation (`_next_port`, lines 90-96, and `__init__`)

`for _ in range(10): for port in self.available_ports:
time.sleep(random.uniform(0.1, 0.5)); if self._acquire_lock(port): return port`
then `raise RuntimeError(...)`. `self.available_ports = [8190, ...,
8190 + Config.DEFAULT_WORKERS * clients_per_worker - 1]` with
`Config.DEFAULT_WORKERS` defaulting to 2. -/

/-- The configured port range of `StreamingManager.__init__` (with the default
`Config.DEFAULT_WORKERS = 2`). -/
def available_ports (clientsPerWorker : ℕ) : List ℕ :=
  List.range' 8190 (2 * clientsPerWorker)

/-- One inner sweep of `_next_port` over the port list. `acq p` is whether the
non-blocking `_acquire_lock(p)` succeeds at this try. Returns the first
acquired port (if any) together with the number of tries consumed; one
`time.sleep(random.uniform(0.1, 0.5))` precedes every try, so `.2` also counts
the sleeps performed. -/
def sweep_ports (acq : ℕ → Bool) : List ℕ → Option ℕ × ℕ
  | [] => (none, 0)
  | p :: ps =>
      if acq p then (some p, 1)
      else ((sweep_ports acq ps).1, (sweep_ports acq ps).2 + 1)

/-- The outer loop of `_next_port`: up to `remaining` further sweeps, the
current one having index `s`; `acq s p` is whether `_acquire_lock(p)` succeeds
at sweep `s`. On success the port is recorded in `locked_files`
(`_acquire_lock` line 51: `self.locked_files[number] = lock_file`); when every
sweep fails, `raise RuntimeError` — modelled as `Except.error`. -/
def next_port_sweeps (acq : ℕ → ℕ → Bool) (ports locked : List ℕ) :
    ℕ → ℕ → Except String (ℕ × List ℕ)
  | _, 0 => Except.error "No available ports found after 10 attempts."
  | s, r + 1 =>
      match (sweep_ports (acq s) ports).1 with
      | some p => Except.ok (p, locked ++ [p])
      | none => next_port_sweeps acq ports locked (s + 1) r

/-- `_next_port` itself: ten sweeps over the configured port range. -/
def next_port (acq : ℕ → ℕ → Bool) (clientsPerWorker : ℕ) (locked : List ℕ) :
    Except String (ℕ × List ℕ) :=
  next_port_sweeps acq (available_ports clientsPerWorker) locked 0 10

/-! ## `_acquire_lock` (lines 40-70) and Python exception dispatch

The `try` body opens the lock file and takes a non-blocking exclusive lock;
the first `except` clause names `(BlockingIOError, OSError)`, the second
`FileNotFoundError`. Python matches `except` clauses in order using
`isinstance`, and both `BlockingIOError` and `FileNotFoundError` are
subclasses of `OSError`. -/

/-- The exception classes `open` / `fcntl.flock` / `msvcrt.locking` can raise
here. -/
inductive PyClass
  | oSError
  | blockingIOError
  | fileNotFoundError
deriving DecidableEq

/-- Python `isinstance` on these classes: an exception of class `e` matches a
clause naming `c` iff `e = c` or `c` is `OSError` and `e` one of its
subclasses (`BlockingIOError` and `FileNotFoundError` both subclass
`OSError`). -/
def matches_class (e c : PyClass) : Bool :=
  e = c ||
    ((e = PyClass.blockingIOError || e = PyClass.fileNotFoundError)
      && c = PyClass.oSError)

/-- Index of the first `except` clause of `_acquire_lock` matching a raised
exception: clause 0 is `except (BlockingIOError, OSError)`, clause 1 is
`except FileNotFoundError`. -/
def handler_index (e : PyClass) : Option ℕ :=
  if matches_class e PyClass.blockingIOError || matches_class e PyClass.oSError then some 0
  else if matches_class e PyClass.fileNotFoundError then some 1
  else none

/-- Outcome of one C-level step (`open`, or the platform lock call): success,
or an exception of the given class. -/
inductive StepOutcome
  | ok
  | raises (e : PyClass)
deriving DecidableEq

/-- Result of a call to `_acquire_lock`: `returned = none` means an exception
propagated out of the method; `handlerRun` records which `except` clause (if
any) executed; `fileClosed` whether that clause closed an open file handle. -/
structure AcquireResult where
  returned : Option Bool
  lockedFiles : List ℕ
  handlerRun : Option ℕ
  fileClosed : Bool
deriving DecidableEq

/-- Body of `_acquire_lock(number)`. `openOut`/`lockOut` are the outcomes of
the first `open` and lock call; `openOut2`/`lockOut2` those of the second
attempt inside the `except FileNotFoundError` clause (lines 55-68). On
success the open file is recorded: `self.locked_files[number] = lock_file`.
Clause 0 closes the handle only when `lock_file` is not `None`, i.e. when the
`open` itself succeeded. -/
def acquire_lock (number : ℕ) (openOut lockOut openOut2 lockOut2 : StepOutcome)
    (locked : List ℕ) : AcquireResult :=
  let dispatch : PyClass → Bool → AcquireResult := fun e fileOpen =>
    match handler_index e with
    | some 0 => ⟨some false, locked, some 0, fileOpen⟩
    | some 1 =>
        -- the retry inside `except FileNotFoundError`
        match openOut2 with
        | .raises e2 =>
            match handler_index e2 with
            | some 0 => ⟨some false, locked, some 1, false⟩
            | _ => ⟨none, locked, some 1, false⟩
        | .ok =>
            match lockOut2 with
            | .ok => ⟨some true, locked ++ [number], some 1, false⟩
            | .raises e2 =>
                match handler_index e2 with
                | some 0 => ⟨some false, locked, some 1, true⟩
                | _ => ⟨none, locked, some 1, false⟩
    | _ => ⟨none, locked, none, false⟩
  match openOut with
  | .raises e => dispatch e false
  | .ok =>
      match lockOut with
      | .ok => ⟨some true, locked ++ [number], none, false⟩
      | .raises e => dispatch e true

/-! ## Early consumer exit (`submit_job` drain loop, lines 163-169)

The drain loop is a plain `for idx, task in enumerate(tasks)` with no
`try`/`finally` and no `task.cancel()` call anywhere in `streaming_logic.py`;
when the consumer abandons the generator after `k` records, iteration simply
stops. The per-worker gates are the `asyncio.Lock`s held by each launched
task only inside the `async with self.client_locks[client_idx]` block of
`generate_blendshapes_coroutine` (line 105). -/

/-- An operation the drain loop performs, plus the cancellation operation the
spec expects (which the loop never issues). -/
inductive SchedOp (α : Type)
  | awaitTask (idx : ℕ)
  | yieldRecord (r : SliceRecord α)
  | cancelTask (idx : ℕ)

/-- The trace of scheduler operations of the drain loop over the first `m`
slices: await each task in index order, then yield its record. -/
def drain_ops {α : Type} (payload : ℕ → α) (m : ℕ) : List (SchedOp α) :=
  (List.range m).flatMap
    (fun idx => [SchedOp.awaitTask idx, SchedOp.yieldRecord ⟨idx, payload idx⟩])

/-- Trace performed when the consumer of an `n`-slice job stops after `k`
records: the loop's first `min k n` iterations, after which the generator is
abandoned — the source contains no cleanup clause, so nothing follows. -/
def ops_on_early_exit {α : Type} (payload : ℕ → α) (n k : ℕ) : List (SchedOp α) :=
  drain_ops payload (min k n)

/-- The task indices a trace cancels. -/
def cancelled_tasks {α : Type} (ops : List (SchedOp α)) : List ℕ :=
  ops.filterMap (fun op => match op with | .cancelTask i => some i | _ => none)

/-- The tasks of an `n`-slice job not yet awaited when the consumer stops
after `k` records. -/
def remaining_tasks (n k : ℕ) : List ℕ := (List.range n).drop (min k n)

/-- Gate (per-client `asyncio.Lock`) operations. -/
inductive GateOp
  | acquire (i : ℕ)
  | release (i : ℕ)
deriving DecidableEq

/-- Gate operations performed by one complete run of
`generate_blendshapes_coroutine` on client `i`: the `async with` block
acquires on entry and releases on exit. -/
def coroutine_gate_ops (i : ℕ) : List GateOp := [GateOp.acquire i, GateOp.release i]

/-- Effect of one gate operation on the multiset of held gates. -/
def apply_gate (held : List ℕ) : GateOp → List ℕ
  | .acquire i => held ++ [i]
  | .release i => held.erase i

/-- Gates still held after a sequence of gate operations, starting from none
held. -/
def held_gates (ops : List GateOp) : List ℕ := ops.foldl apply_gate []

/-- Gate operations of all `n` launched tasks of a job running to completion
(task `i` on client `i % numClients`), in completion order. -/
def all_tasks_gate_ops (numClients n : ℕ) : List GateOp :=
  (List.range n).flatMap (fun i => coroutine_gate_ops (i % numClients))

/-! ## Helper lemmas on the slice list -/

theorem chunk_size_pos : (0 : ℚ) < chunk_size := by norm_num [chunk_size]

theorem chunks_length (d : ℚ) : (chunks d).length = (nr_splits d).toNat := by
  rw [chunks, List.length_map, List.length_range]

theorem chunks_get (d : ℚ) (i : ℕ) (hi : i < (chunks d).length) :
    (chunks d).get ⟨i, hi⟩ =
      ((i : ℚ) * chunk_size, min (((i : ℚ) + 1) * chunk_size) d) := by
  rw [List.get_eq_getElem]
  simp only [chunks, List.getElem_map, List.getElem_range]

theorem nr_splits_lb (d : ℚ) : ((nr_splits d : ℚ) - 1 / 2) * chunk_size < d := by
  have h2 : ((nr_splits d : ℚ)) < d / chunk_size - 1 / 2 + 1 := Int.ceil_lt_add_one _
  have hw := chunk_size_pos
  have h3 : ((nr_splits d : ℚ) - 1 / 2) < d / chunk_size := by linarith
  calc ((nr_splits d : ℚ) - 1 / 2) * chunk_size
      < d / chunk_size * chunk_size := by exact mul_lt_mul_of_pos_right h3 hw
    _ = d := div_mul_cancel₀ d (ne_of_gt hw)

theorem nr_splits_ub (d : ℚ) : d ≤ ((nr_splits d : ℚ) + 1 / 2) * chunk_size := by
  have h1 : (d / chunk_size - 1 / 2 : ℚ) ≤ nr_splits d := Int.le_ceil _
  have hw := chunk_size_pos
  have h3 : d / chunk_size ≤ ((nr_splits d : ℚ) + 1 / 2) := by linarith
  calc d = d / chunk_size * chunk_size := (div_mul_cancel₀ d (ne_of_gt hw)).symm
    _ ≤ ((nr_splits d : ℚ) + 1 / 2) * chunk_size := by
        exact mul_le_mul_of_nonneg_right h3 hw.le

theorem nr_splits_pos (d : ℚ) (hd : chunk_size / 2 < d) : 1 ≤ nr_splits d := by
  have hw := chunk_size_pos
  have h0 : (0 : ℚ) < d / chunk_size - 1 / 2 := by
    rw [sub_pos, lt_div_iff₀ hw]
    linarith
  exact Int.ceil_pos.mpr h0

theorem chunks_one_eq : chunks 1 = [(0, 3 / 10), (3 / 10, 3 / 5), (3 / 5, 9 / 10)] := by
  have h3 : nr_splits 1 = 3 := by
    unfold nr_splits chunk_size
    rw [Int.ceil_eq_iff]
    norm_num
  simp [chunks, h3, chunk_size, List.range_succ]
  norm_num

theorem chunks_eq_nil (d : ℚ) (hd : d < chunk_size / 2) : chunks d = [] := by
  have hw := chunk_size_pos
  have h0 : nr_splits d ≤ 0 := by
    apply Int.ceil_le.mpr
    push_cast
    rw [sub_nonpos, div_le_iff₀ hw]
    linarith
  rw [chunks, Int.toNat_of_nonpos h0]
  simp

/-! ## Claim theorems -/

/-- C1 (amended). For every duration `d` longer than half a chunk width, the
slice list built by `submit_job` with the fixed chunk width 0.3 is nonempty,
contiguous and non-overlapping, its first slice starts at 0, and the last
slice's end is `min (sliceCount * 0.3) d` — equal to `d` only when
`d ≤ sliceCount * 0.3`; a trailing remainder of `[0, d)` shorter than half a
chunk width is dropped, so in particular for `d = 1.0` the slices are
`[0, 0.3), [0.3, 0.6), [0.6, 0.9)`. -/
theorem slice_partition_amended (d : ℚ) (hd : chunk_size / 2 < d) :
    1 ≤ (chunks d).length
    ∧ (∀ h0 : 0 < (chunks d).length, ((chunks d).get ⟨0, h0⟩).1 = 0)
    ∧ (∀ i, ∀ hi1 : i + 1 < (chunks d).length,
        ((chunks d).get ⟨i, Nat.lt_of_succ_lt hi1⟩).2 = ((chunks d).get ⟨i + 1, hi1⟩).1)
    ∧ (∀ i, ∀ hi : i < (chunks d).length,
        ((chunks d).get ⟨i, hi⟩).1 < ((chunks d).get ⟨i, hi⟩).2)
    ∧ (∀ hl : (chunks d).length - 1 < (chunks d).length,
        ((chunks d).get ⟨(chunks d).length - 1, hl⟩).2
          = min ((nr_splits d : ℚ) * chunk_size) d)
    ∧ chunks 1 = [(0, 3 / 10), (3 / 10, 3 / 5), (3 / 5, 9 / 10)] := by
  have hn1 : 1 ≤ nr_splits d := nr_splits_pos d hd
  have hlen : (chunks d).length = (nr_splits d).toNat := chunks_length d
  have hlen1 : 1 ≤ (chunks d).length := by rw [hlen]; omega
  have hlb := nr_splits_lb d
  have hcs : chunk_size = 3 / 10 := rfl
  rw [hcs] at hlb
  refine ⟨hlen1, ?_, ?_, ?_, ?_, chunks_one_eq⟩
  · intro h0
    rw [chunks_get]
    push_cast
    ring
  · intro i hi1
    have hc : ((i : ℚ) + 2) ≤ (nr_splits d : ℚ) := by
      have : (i : ℤ) + 2 ≤ nr_splits d := by rw [hlen] at hi1; omega
      exact_mod_cast this
    rw [chunks_get, chunks_get]
    simp only [hcs]
    push_cast
    rw [min_eq_left (by linarith)]
  · intro i hi
    have hc : ((i : ℚ) + 1) ≤ (nr_splits d : ℚ) := by
      have : (i : ℤ) + 1 ≤ nr_splits d := by rw [hlen] at hi; omega
      exact_mod_cast this
    rw [chunks_get]
    simp only [hcs]
    exact lt_min (by linarith) (by linarith)
  · intro hl
    have h1 : 1 ≤ (nr_splits d).toNat := by omega
    have hcast : (((chunks d).length - 1 : ℕ) : ℚ) = (nr_splits d : ℚ) - 1 := by
      rw [hlen, Nat.cast_sub h1, Nat.cast_one]
      have h2 : ((nr_splits d).toNat : ℤ) = nr_splits d :=
        Int.toNat_of_nonneg (by omega)
      have h3 : ((nr_splits d).toNat : ℚ) = ((nr_splits d : ℤ) : ℚ) := by
        exact_mod_cast congrArg (fun z : ℤ => (z : ℚ)) h2
      rw [h3]
    rw [chunks_get, hcast]
    ring_nf

/-- C1 counterexample: at the claim's own instance `d = 1.0` the slice list is
`[0, 0.3), [0.3, 0.6), [0.6, 0.9)` — the last slice ends at 0.9, not at the
duration 1.0, so the claimed list `[0,0.3), [0.3,0.6), [0.6,1.0)` is wrong. -/
theorem slice_partition_cex :
    chunks 1 ≠ [(0, 3 / 10), (3 / 10, 3 / 5), (3 / 5, 1)] := by
  rw [chunks_one_eq]
  simp only [ne_eq, List.cons.injEq, Prod.mk.injEq]
  norm_num

/-- Witness for C1 (amended) at the concrete duration `d = 1`. -/
theorem slice_partition_amended_witness :
    chunk_size / 2 < (1 : ℚ) ∧ 1 ≤ (chunks 1).length :=
  ⟨by norm_num [chunk_size], (slice_partition_amended 1 (by norm_num [chunk_size])).1⟩

/-- C6: a job shorter than half a chunk width (e.g. duration 0.1 against chunk
width 0.3) gets slice count `ceil(d / 0.3 - 0.5) ≤ 0`, hence an empty slice
list, an output sequence that completes immediately with no records, and no
`generate_blendshapes` call to any worker. -/
theorem short_job_zero_slices {α : Type} (d : ℚ) (hd : d < chunk_size / 2) :
    nr_splits d ≤ 0
    ∧ chunks d = []
    ∧ (∀ (completion : ℕ → ℚ) (payload : ℕ → α),
        submit_job_stream completion payload d = [])
    ∧ (∀ numClients : ℕ, generate_calls numClients d = []) := by
  have hw := chunk_size_pos
  have h0 : nr_splits d ≤ 0 := by
    apply Int.ceil_le.mpr
    push_cast
    rw [sub_nonpos, div_le_iff₀ hw]
    linarith
  have hch : chunks d = [] := chunks_eq_nil d hd
  refine ⟨h0, hch, fun c p => ?_, fun nc => ?_⟩
  · simp [submit_job_stream, hch]
  · simp [generate_calls, hch]

/-- Witness for C6 at the concrete duration `d = 0.1`. -/
theorem short_job_zero_slices_witness :
    (1 : ℚ) / 10 < chunk_size / 2 ∧ chunks (1 / 10) = [] :=
  ⟨by norm_num [chunk_size],
    (short_job_zero_slices (α := ℕ) (1 / 10) (by norm_num [chunk_size])).2.1⟩

/-! ## Helper lemmas on the rate update -/

theorem fdiv_two_eq_floor (x : ℤ) : Int.fdiv x 2 = Int.floor ((x : ℚ) / 2) := by
  rw [Int.fdiv_eq_ediv _ (by norm_num)]
  rw [show ((2 : ℚ)) = ((2 : ℕ) : ℚ) by norm_num, Rat.floor_intCast_div_natCast]
  norm_num

theorem update_fps_le_max (W : ℕ) (c : ℤ) (a : ℚ) : update_fps W c a ≤ max_fps :=
  min_le_left _ _

theorem update_fps_ge_min (W : ℕ) (c : ℤ) (a : ℚ) (hc : min_fps ≤ c) :
    min_fps ≤ update_fps W c a := by
  have hs : min_fps ≤ safe_fps W c a := le_max_left _ _
  unfold update_fps
  rw [Int.fdiv_eq_ediv _ (by norm_num)]
  unfold min_fps max_fps at *
  refine le_min (by norm_num) ?_
  omega

theorem update_fps_mono_step (W : ℕ) (c : ℤ) (a : ℚ) (hW : 2 ≤ W)
    (h10 : min_fps ≤ c) (h30 : c ≤ max_fps) (ha : 1 ≤ a) : c ≤ update_fps W c a := by
  unfold min_fps at h10
  unfold max_fps at h30
  have hfl : 2 * c - 7 ≤ Int.floor ((W : ℚ) * (c : ℚ) * a - 7) := by
    apply Int.le_floor.mpr
    push_cast
    have hcq : (10 : ℚ) ≤ (c : ℚ) := by exact_mod_cast h10
    have hWq : (2 : ℚ) ≤ (W : ℚ) := by exact_mod_cast hW
    have h1 : (2 : ℚ) ≤ (W : ℚ) * a := by nlinarith
    have h2 : (c : ℚ) * 2 ≤ (c : ℚ) * ((W : ℚ) * a) :=
      mul_le_mul_of_nonneg_left h1 (by linarith)
    nlinarith [h2]
  have hs : 2 * c - 7 ≤ safe_fps W c a := le_trans hfl (le_max_right _ _)
  unfold update_fps
  rw [Int.fdiv_eq_ediv _ (by norm_num)]
  unfold min_fps max_fps at *
  refine le_min h30 ?_
  omega

/-! ## Claim theorems on rate control -/

/-- C2 counterexample: `submit_job` performs no clamping when resolving the
requested fps — a request of 31 makes `currentFps = 31`, above `maxFps = 30`. -/
theorem fps_bounds_cex :
    resolve_fps (some 31) = 31 ∧ ¬ resolve_fps (some 31) ≤ max_fps := by
  refine ⟨rfl, ?_⟩
  decide

/-- C2 (amended): `currentFps` lies within `[minFps, maxFps]` after
construction and is kept there by every rate update performed on slice
completion; but `submit_job` sets `currentFps` to the raw resolved request
value with no clamping, so after `submit_job` it is in bounds only when the
requested fps is (the default, used when no fps is requested, is in bounds). -/
theorem fps_bounds_amended :
    (min_fps ≤ init_current_fps ∧ init_current_fps ≤ max_fps)
    ∧ (∀ (W : ℕ) (c : ℤ) (a : ℚ), min_fps ≤ c → c ≤ max_fps →
        min_fps ≤ update_fps W c a ∧ update_fps W c a ≤ max_fps)
    ∧ (min_fps ≤ resolve_fps none ∧ resolve_fps none ≤ max_fps)
    ∧ (∀ f : ℤ, resolve_fps (some f) = f) := by
  refine ⟨by decide, fun W c a hlo _hhi => ⟨update_fps_ge_min W c a hlo,
    update_fps_le_max W c a⟩, by decide, fun f => rfl⟩

/-- Witness for C2 (amended) at `W = 2`, `currentFps = 15`, ratio `1/2`. -/
theorem fps_bounds_amended_witness :
    min_fps ≤ update_fps 2 15 (1 / 2) ∧ update_fps 2 15 (1 / 2) ≤ max_fps :=
  fps_bounds_amended.2.1 2 15 (1 / 2) (by decide) (by decide)

/-- C4 counterexample: the code's damped update uses Python's integer floor
division `//`, not the exact average of the claim. At `currentFps = 10`,
`throughputRatio = 1`, `workerCount = 2`: `estimatedSafeFps = 13`, the code
yields `(10 + 13) // 2 = 11`, while the claimed
`min(maxFps, (currentFps + estimatedSafeFps) / 2)` is `11.5`. -/
theorem rate_update_formula_cex :
    ((update_fps 2 10 1 : ℤ) : ℚ) ≠ update_fps_spec_formula 2 10 1 := by
  have hsafe : safe_fps 2 10 1 = 13 := by
    unfold safe_fps min_fps
    rw [show ((2 : ℕ) : ℚ) * ((10 : ℤ) : ℚ) * 1 - 7 = ((13 : ℤ) : ℚ) by push_cast; norm_num,
      Int.floor_intCast]
    decide
  have h1 : update_fps 2 10 1 = 11 := by
    unfold update_fps max_fps
    rw [hsafe]
    decide
  have h2 : update_fps_spec_formula 2 10 1 = 23 / 2 := by
    unfold update_fps_spec_formula max_fps
    rw [hsafe]
    push_cast
    norm_num
  rw [h1, h2]
  norm_num

/-- C4 (amended): after each completed slice the update computes
`throughputRatio = sliceDuration / wallClockElapsed`, then
`estimatedSafeFps = max(minFps, floor(workerCount * currentFps *
throughputRatio - 7))` with safety margin 7, and sets
`currentFps = min(maxFps, floor((currentFps + estimatedSafeFps) / 2))` — the
damped average is floored (Python integer division), not exact. -/
theorem rate_update_formula_amended (W : ℕ) (c : ℤ) (a : ℚ) :
    safe_fps W c a = max min_fps (Int.floor ((W : ℚ) * (c : ℚ) * a - 7))
    ∧ update_fps W c a
        = min max_fps (Int.floor (((c : ℚ) + (safe_fps W c a : ℚ)) / 2)) := by
  refine ⟨rfl, ?_⟩
  rw [update_fps, fdiv_two_eq_floor]
  push_cast
  rfl

/-- C5: starting from a `currentFps` within `[minFps, maxFps]` and with the
pool of at least two clients the code constructs, if every observed slice has
throughput ratio ≥ 1 the successive values of `currentFps` are non-decreasing
and never exceed `maxFps`; if every observed slice has throughput ratio < 1,
`currentFps` never drops below `minFps`. -/
theorem rate_convergence (W : ℕ) (hW : 2 ≤ W) (c : ℤ)
    (hlo : min_fps ≤ c) (hhi : c ≤ max_fps) (l : List ℚ) :
    ((∀ a ∈ l, (1 : ℚ) ≤ a) →
      (fps_trace W c l).Chain' (· ≤ ·) ∧ ∀ x ∈ fps_trace W c l, x ≤ max_fps)
    ∧ ((∀ a ∈ l, a < 1) → ∀ x ∈ fps_trace W c l, min_fps ≤ x) := by
  induction l generalizing c with
  | nil =>
      refine ⟨fun _ => ⟨?_, ?_⟩, fun _ => ?_⟩
      · simp [fps_trace]
      · intro x hx
        simp [fps_trace] at hx
        simpa [hx] using hhi
      · intro x hx
        simp [fps_trace] at hx
        simpa [hx] using hlo
  | cons a rest ih =>
      have hu_le := update_fps_le_max W c a
      have hu_ge := update_fps_ge_min W c a hlo
      constructor
      · intro hall
        have ha : (1 : ℚ) ≤ a := hall a (by simp)
        have hrest : ∀ b ∈ rest, (1 : ℚ) ≤ b := fun b hb => hall b (by simp [hb])
        have ihu := (ih (update_fps W c a) hu_ge hu_le).1 hrest
        have hstep := update_fps_mono_step W c a hW hlo hhi ha
        constructor
        · show List.Chain' _ (c :: fps_trace W (update_fps W c a) rest)
          rw [List.chain'_cons']
          refine ⟨?_, ihu.1⟩
          intro b hb
          have hhead : (fps_trace W (update_fps W c a) rest).head? =
              some (update_fps W c a) := by
            cases rest <;> rfl
          rw [hhead] at hb
          cases hb
          exact hstep
        · intro x hx
          rcases (by simpa [fps_trace] using hx :
              x = c ∨ x ∈ fps_trace W (update_fps W c a) rest) with h | h
          · simpa [h] using hhi
          · exact ihu.2 x h
      · intro hall
        have hrest : ∀ b ∈ rest, b < 1 := fun b hb => hall b (by simp [hb])
        have ihu := (ih (update_fps W c a) hu_ge hu_le).2 hrest
        intro x hx
        rcases (by simpa [fps_trace] using hx :
            x = c ∨ x ∈ fps_trace W (update_fps W c a) rest) with h | h
        · simpa [h] using hlo
        · exact ihu x h

/-- Witness for C5 at `W = 2`, `currentFps = 20`, one observed ratio `1`. -/
theorem rate_convergence_witness :
    (fps_trace 2 20 [1]).Chain' (· ≤ ·) ∧ ∀ x ∈ fps_trace 2 20 [1], x ≤ max_fps :=
  (rate_convergence 2 (by norm_num) 20 (by decide) (by decide) [1]).1
    (by intro a ha; simp at ha; simp [ha])

/-- C3: for every job and any interleaving of task completion times, the
streamed sequence emits exactly one record per slice with `chunk_id` values
`0, 1, ..., n-1` in that order — the drain loop awaits tasks strictly in
slice-index order, so the output is independent of the completion-time
interleaving. -/
theorem stream_order {α : Type} (d : ℚ) (completion completion2 : ℕ → ℚ)
    (payload : ℕ → α) :
    (submit_job_stream completion payload d).map SliceRecord.chunk_id
        = List.range (chunks d).length
    ∧ submit_job_stream completion payload d
        = submit_job_stream completion2 payload d := by
  constructor
  · rw [submit_job_stream]
    rw [List.map_map]
    exact List.map_id _
  · rfl

/-- C7 counterexample: a job of non-positive duration 0 is not rejected —
`process_audio_endpoint` and `submit_job` contain no duration check, so the
job succeeds and the setup call `client.set_audio(...)` is pushed to worker 0
(and every other worker) before the empty slice list is built. -/
theorem invalid_duration_cex :
    process_audio EmotionsForm.absent 2 0 = Except.ok (submit_job_calls 2 false 0)
    ∧ WorkerCall.setAudio 0 ∈ submit_job_calls 2 false 0 := by
  refine ⟨rfl, ?_⟩
  apply List.mem_append_left
  exact List.mem_flatMap.mpr ⟨0, List.mem_range.mpr (by norm_num), List.mem_cons_self _ _⟩

/-- C7 (amended): malformed emotion weights are rejected with HTTP 400 in
`process_audio_endpoint` before `submit_job` runs, so no worker call of any
kind is made; but a non-positive duration is not rejected anywhere — the job
proceeds normally, pushes the setup calls (bind audio, and set emotions when
given) to every worker, and merely ends up with zero slices, so no generate
call is made. -/
theorem param_validation_amended (numClients : ℕ) (d : ℚ) :
    process_audio EmotionsForm.malformed numClients d
      = Except.error "400 Invalid emotions format"
    ∧ (d ≤ 0 → ∀ ef : EmotionsForm, ef ≠ EmotionsForm.malformed →
        ∃ calls, process_audio ef numClients d = Except.ok calls
          ∧ (∀ c < numClients, WorkerCall.setAudio c ∈ calls)
          ∧ (∀ cl s e, WorkerCall.generate cl s e ∉ calls)) := by
  refine ⟨rfl, fun hd ef hef => ?_⟩
  have hnil : chunks d = [] := by
    apply chunks_eq_nil
    have := chunk_size_pos
    linarith
  have hmem : ∀ (he : Bool), ∀ c < numClients,
      WorkerCall.setAudio c ∈ submit_job_calls numClients he d := by
    intro he c hc
    apply List.mem_append_left
    exact List.mem_flatMap.mpr ⟨c, List.mem_range.mpr hc, List.mem_cons_self _ _⟩
  have hgen : ∀ (he : Bool) cl s e,
      WorkerCall.generate cl s e ∉ submit_job_calls numClients he d := by
    intro he cl s e h
    rcases List.mem_append.mp h with h | h
    · rcases List.mem_flatMap.mp h with ⟨c, _, hc⟩
      rcases List.mem_cons.mp hc with h2 | h2
      · exact WorkerCall.noConfusion h2
      · cases he with
        | true => simp at h2
        | false => simp at h2
    · rw [generate_calls, hnil] at h
      simp at h
  cases ef with
  | malformed => exact absurd rfl hef
  | absent =>
      exact ⟨submit_job_calls numClients false (load_audio_duration d), rfl,
        hmem false, hgen false⟩
  | wellformed =>
      exact ⟨submit_job_calls numClients true (load_audio_duration d), rfl,
        hmem true, hgen true⟩

/-- Witness for C7 (amended) at `numClients = 2`, duration `0`, an absent
emotions field. -/
theorem param_validation_amended_witness :
    (0 : ℚ) ≤ 0
    ∧ EmotionsForm.absent ≠ EmotionsForm.malformed
    ∧ ∃ calls, process_audio EmotionsForm.absent 2 0 = Except.ok calls
        ∧ (∀ c < 2, WorkerCall.setAudio c ∈ calls)
        ∧ (∀ cl s e, WorkerCall.generate cl s e ∉ calls) :=
  ⟨le_refl 0, by decide,
    (param_validation_amended 2 0).2 (le_refl 0) EmotionsForm.absent (by decide)⟩

/-! ## Lemmas on port allocation -/

theorem sweep_ports_none (acq : ℕ → Bool) (ports : List ℕ)
    (h : ∀ p ∈ ports, acq p = false) :
    sweep_ports acq ports = (none, ports.length) := by
  induction ports with
  | nil => rfl
  | cons p ps ih =>
      have hp : acq p = false := h p (by simp)
      have hps : ∀ q ∈ ps, acq q = false := fun q hq => h q (by simp [hq])
      simp [sweep_ports, hp, ih hps]

theorem sweep_ports_some (acq : ℕ → Bool) (ports : List ℕ) (p : ℕ)
    (h : (sweep_ports acq ports).1 = some p) : p ∈ ports ∧ acq p = true := by
  induction ports with
  | nil => simp [sweep_ports] at h
  | cons q ps ih =>
      by_cases hq : acq q = true
      · rw [sweep_ports, if_pos hq] at h
        simp only [Option.some.injEq] at h
        subst h
        exact ⟨List.mem_cons_self _ _, hq⟩
      · rw [sweep_ports, if_neg hq] at h
        rcases ih h with ⟨h1, h2⟩
        exact ⟨List.mem_cons_of_mem _ h1, h2⟩

theorem next_port_sweeps_ok (acq : ℕ → ℕ → Bool) (ports locked : List ℕ)
    (r : ℕ) : ∀ (s p : ℕ) (L : List ℕ),
    next_port_sweeps acq ports locked s r = Except.ok (p, L) →
    p ∈ ports ∧ (∃ t, s ≤ t ∧ t < s + r ∧ acq t p = true) ∧ L = locked ++ [p] := by
  induction r with
  | zero =>
      intro s p L h
      exact absurd h (by simp [next_port_sweeps])
  | succ r ih =>
      intro s p L h
      rw [next_port_sweeps] at h
      cases hm : (sweep_ports (acq s) ports).1 with
      | none =>
          rw [hm] at h
          rcases ih (s + 1) p L h with ⟨h1, ⟨t, ht1, ht2, ht3⟩, h3⟩
          exact ⟨h1, ⟨t, by omega, by omega, ht3⟩, h3⟩
      | some q =>
          rw [hm] at h
          simp only [Except.ok.injEq, Prod.mk.injEq] at h
          rcases h with ⟨hq, hL⟩
          subst hq
          rcases sweep_ports_some _ _ _ hm with ⟨hmem, hacq⟩
          exact ⟨hmem, ⟨s, le_refl s, by omega, hacq⟩, hL.symm⟩

theorem next_port_sweeps_err (acq : ℕ → ℕ → Bool) (ports locked : List ℕ)
    (r : ℕ) : ∀ s : ℕ, (∀ t, s ≤ t → t < s + r → ∀ p ∈ ports, acq t p = false) →
    next_port_sweeps acq ports locked s r
      = Except.error "No available ports found after 10 attempts." := by
  induction r with
  | zero => intro s _; rfl
  | succ r ih =>
      intro s h
      rw [next_port_sweeps]
      have hnone :=
        sweep_ports_none (acq s) ports (fun p hp => h s (le_refl s) (by omega) p hp)
      rw [hnone]
      exact ih (s + 1) (fun t ht1 ht2 p hp => h t (by omega) (by omega) p hp)

/-! ## Remaining claim theorems -/

/-- C8: `_next_port` performs up to ten sweeps over the full configured port
range, trying the non-blocking lock acquisition on each port (each try
preceded by one `time.sleep(random.uniform(0.1, 0.5))`, counted by
`sweep_ports`): whenever it returns normally, the returned port belongs to
the configured range, its lock was acquired in some sweep, and the port is
recorded as held in `locked_files`; and when no port is acquired in any of
the ten sweeps, every sweep tries the whole range and the function raises
`RuntimeError` (the spec's ResourceExhausted) instead of returning. -/
theorem next_port_spec (acq : ℕ → ℕ → Bool) (cpw : ℕ) (locked : List ℕ) :
    (∀ (p : ℕ) (L : List ℕ), next_port acq cpw locked = Except.ok (p, L) →
        p ∈ available_ports cpw ∧ (∃ s, s < 10 ∧ acq s p = true)
          ∧ L = locked ++ [p])
    ∧ ((∀ s, s < 10 → ∀ p ∈ available_ports cpw, acq s p = false) →
        next_port acq cpw locked
            = Except.error "No available ports found after 10 attempts."
          ∧ ∀ s, s < 10 → (sweep_ports (acq s) (available_ports cpw)).2
              = (available_ports cpw).length) := by
  constructor
  · intro p L h
    rcases next_port_sweeps_ok acq (available_ports cpw) locked 10 0 p L h with
      ⟨h1, ⟨t, _, ht2, ht3⟩, h3⟩
    exact ⟨h1, ⟨t, by omega, ht3⟩, h3⟩
  · intro hall
    refine ⟨?_, fun s hs => ?_⟩
    · exact next_port_sweeps_err acq (available_ports cpw) locked 10 0
        (fun t _ ht2 p hp => hall t (by omega) p hp)
    · have := sweep_ports_none (acq s) (available_ports cpw) (hall s hs)
      rw [this]

/-- Witness for C8: with an acquisition oracle that always succeeds and an
empty `locked_files`, `_next_port` returns the first configured port 8190 and
records it as held. -/
theorem next_port_spec_witness :
    8190 ∈ available_ports 2
    ∧ (∃ s, s < 10 ∧ (fun _ _ => true : ℕ → ℕ → Bool) s 8190 = true)
    ∧ ([8190] : List ℕ) = [] ++ [8190] :=
  (next_port_spec (fun _ _ => true) 2 []).1 8190 [8190] rfl

/-! ## Lemmas on the drain-loop trace and the gates -/

theorem cancelled_drain_ops {α : Type} (payload : ℕ → α) (m : ℕ) :
    cancelled_tasks (drain_ops payload m) = [] := by
  induction m with
  | zero => rfl
  | succ m ih =>
      rw [drain_ops, List.range_succ, List.flatMap_append]
      rw [cancelled_tasks, List.filterMap_append]
      have h1 : cancelled_tasks (drain_ops payload m) = [] := ih
      rw [drain_ops, cancelled_tasks] at h1
      rw [h1]
      rfl

theorem held_gates_pairs (g : ℕ → ℕ) (l : List ℕ) :
    (l.flatMap (fun i => [GateOp.acquire (g i), GateOp.release (g i)])).foldl
        apply_gate [] = [] := by
  induction l with
  | nil => rfl
  | cons i t ih =>
      rw [List.flatMap_cons, List.foldl_append]
      have h0 : List.foldl apply_gate []
          [GateOp.acquire (g i), GateOp.release (g i)] = [] := by
        simp [apply_gate, List.erase_cons_head]
      rw [h0]
      exact ih

/-- C9 counterexample: a consumer that disconnects after chunk 0 of a 5-slice
job leaves tasks 1-4 not yet awaited, and the scheduler trace cancels
nothing — the drain loop of `submit_job` contains no `task.cancel()` and no
cleanup clause, contradicting "cancels every remaining not-yet-awaited slice
task". -/
theorem early_exit_cex :
    1 ∈ remaining_tasks 5 1
    ∧ cancelled_tasks (ops_on_early_exit (fun _ => (0 : ℕ)) 5 1) = [] := by
  constructor
  · decide
  · rfl

/-- C9 (amended): when the consumer stops consuming early, the scheduler
cancels no task at all — the remaining slice tasks keep running in the
background to completion; every acquired per-worker gate is nevertheless
released, because a task holds its client's gate only inside the
`async with` block, so after all launched tasks have run to completion no
gate remains held. -/
theorem early_exit_amended {α : Type} (payload : ℕ → α) (n k numClients : ℕ) :
    cancelled_tasks (ops_on_early_exit payload n k) = []
    ∧ held_gates (all_tasks_gate_ops numClients n) = [] :=
  ⟨cancelled_drain_ops payload (min k n),
    held_gates_pairs (fun i => i % numClients) (List.range n)⟩

/-! ## `_acquire_lock` claims -/

theorem handler_index_eq_zero (e : PyClass) : handler_index e = some 0 := by
  cases e <;> rfl

theorem acquire_lock_cases (number : ℕ) (o1 l1 o2 l2 : StepOutcome)
    (locked : List ℕ) :
    acquire_lock number o1 l1 o2 l2 locked =
      match o1, l1 with
      | .ok, .ok => ⟨some true, locked ++ [number], none, false⟩
      | .ok, .raises _ => ⟨some false, locked, some 0, true⟩
      | .raises _, _ => ⟨some false, locked, some 0, false⟩ := by
  cases o1 with
  | ok =>
      cases l1 with
      | ok => rfl
      | raises e => cases e <;> rfl
  | raises e => cases l1 <;> cases e <;> rfl

/-- C10: `_acquire_lock` is total over every outcome of its `open` and lock
calls and never raises: it either returns `True` with the open lock file
recorded in `locked_files`, or returns `False` leaving `locked_files`
unchanged and with the file handle closed whenever `open` had succeeded.
Its `except FileNotFoundError` clause is unreachable: `FileNotFoundError`
subclasses `OSError`, so the preceding `except (BlockingIOError, OSError)`
clause always matches first — no run ever executes handler 1, and the result
never depends on the second open-and-lock attempt's outcomes. -/
theorem acquire_lock_total (number : ℕ) (o1 l1 o2 l2 : StepOutcome)
    (locked : List ℕ) :
    (acquire_lock number o1 l1 o2 l2 locked).returned ≠ none
    ∧ ((acquire_lock number o1 l1 o2 l2 locked).returned = some true →
        (acquire_lock number o1 l1 o2 l2 locked).lockedFiles = locked ++ [number])
    ∧ ((acquire_lock number o1 l1 o2 l2 locked).returned = some false →
        (acquire_lock number o1 l1 o2 l2 locked).lockedFiles = locked
        ∧ (o1 = StepOutcome.ok →
            (acquire_lock number o1 l1 o2 l2 locked).fileClosed = true))
    ∧ (acquire_lock number o1 l1 o2 l2 locked).handlerRun ≠ some 1
    ∧ (∀ o2' l2' : StepOutcome, acquire_lock number o1 l1 o2 l2 locked
        = acquire_lock number o1 l1 o2' l2' locked) := by
  rw [acquire_lock_cases]
  cases o1 with
  | ok =>
      cases l1 with
      | ok =>
          refine ⟨by simp, fun _ => rfl, fun h => by simp at h, by simp,
            fun o2' l2' => ?_⟩
          rw [acquire_lock_cases]
      | raises e =>
          refine ⟨by simp, fun h => by simp at h, fun _ => ⟨rfl, fun _ => rfl⟩,
            by simp, fun o2' l2' => ?_⟩
          rw [acquire_lock_cases]
  | raises e =>
      refine ⟨by simp, fun h => by simp at h,
        fun _ => ⟨rfl, fun hok => StepOutcome.noConfusion hok⟩,
        by simp, fun o2' l2' => ?_⟩
      rw [acquire_lock_cases]

/-- Witness for C10 at port 8190 with both calls succeeding: the call returns
and records the lock. -/
theorem acquire_lock_total_witness :
    (acquire_lock 8190 StepOutcome.ok StepOutcome.ok StepOutcome.ok
        StepOutcome.ok []).returned ≠ none
    ∧ (acquire_lock 8190 StepOutcome.ok StepOutcome.ok StepOutcome.ok
        StepOutcome.ok []).lockedFiles = [] ++ [8190] :=
  ⟨(acquire_lock_total 8190 StepOutcome.ok StepOutcome.ok StepOutcome.ok
      StepOutcome.ok []).1,
    (acquire_lock_total 8190 StepOutcome.ok StepOutcome.ok StepOutcome.ok
      StepOutcome.ok []).2.1 rfl⟩

end A2F

